import Mathlib

/-!
# metastore: the record codec of `utils.c`

A shallow embedding of the separator-delimited codec of metastore
(`write_int`, `write_binary_string`, `write_string`, `read_int`,
`read_binary_string`, `read_string` and the helper `xfwrite`), together with
the C library routines they call (`strchr`, `strlen`, `strtoull`, `sprintf`,
`malloc`, `memcpy`), the latter following ISO C. The file also embeds the
cached group and user lookups and `msg` of `utils.c`, the difference flags of
`metaentry.h` and the header literals of `metastore.h`.

Conventions.
* A byte is a natural number. Memory is a list of bytes indexed by address;
  it is NUL-terminated: every address at or past its end reads as NUL, which
  is what `strchr` and `strtoull` require of their argument.
* Pointers and `size_t` values are 64-bit machine words. Arithmetic on them
  that can leave the word (`*from + len`, `separator - *from`, `len + 1`) is
  reduced modulo `WORD`. The null pointer has value `0`.
* `exit(EXIT_FAILURE)` is the error branch of `Except`.
* `SEPARATOR` is a build-time constant that `utils.c` uses but does not
  define; every function that uses it takes it as its first argument.
* `fwrite` and `malloc` are taken to succeed: the output stream is a list of
  bytes to which `xfwrite` appends, and `xmalloc` grants every request. Where
  the size requested is not one `malloc` can be taken to grant, the readers
  are embedded a second time (`read_binary_string_or_exit`,
  `read_string_or_exit`) with `malloc` as an oracle, the exit of `xmalloc`
  and a copy that overruns its block made explicit.
-/

namespace Metastore

set_option autoImplicit false

/-- Number of values of a 64-bit machine word. -/
def WORD : Nat := 18446744073709551616

/-- The value of `errno` that `strtoull` stores on overflow. -/
def ERANGE : Nat := 34

/-- Byte at address `a`; addresses past the end of memory read as NUL. -/
def peek (mem : List Nat) (a : Nat) : Nat := mem.getD a 0

/-- C `isspace` in the C locale: space, and the controls `\t \n \v \f \r`. -/
def isspace (c : Nat) : Bool := c == 32 || (9 ≤ c && c ≤ 13)

/-- C `isdigit`: the ASCII codes of `0` .. `9`. -/
def isdigit (c : Nat) : Bool := 48 ≤ c && c ≤ 57

/-- Scan of `strchr`: `s` is what memory holds from address `p` on. The
character searched for is compared before the NUL test, so that searching for
NUL finds the terminator. -/
def strchrFrom : List Nat → Nat → Nat → Option Nat
  | [], p, c => if c = 0 then some p else none
  | b :: rest, p, c =>
    if b = c then some p else if b = 0 then none else strchrFrom rest (p + 1) c

/-- C `strchr(s, c)` on the string at address `s`: the address of the first
occurrence of `c`, or `none` for the null pointer. -/
def strchr (mem : List Nat) (s c : Nat) : Option Nat :=
  strchrFrom (mem.drop s) s c

/-- Numeric value of a pointer returned by `strchr`; the null pointer is 0. -/
def ptrValue : Option Nat → Nat
  | none => 0
  | some p => p

/-- C `strlen` of the string held in `s` (a NUL past the end is implicit). -/
def strlen : List Nat → Nat
  | [] => 0
  | b :: rest => if b = 0 then 0 else strlen rest + 1

/-- Text produced by the `printf` conversion `%llu`: the decimal digits of
`v`, most significant first, as ASCII codes; `0` prints as a single `0`. -/
def fmt_llu (v : Nat) : List Nat :=
  if v = 0 then [48] else (Nat.digits 10 v).reverse.map (fun d => d + 48)

/-- Contents of the buffer after `sprintf(buf, "%llu%c", v, c)`: the digits,
the character, and the terminating NUL that `sprintf` appends. -/
def sprintf_llu_c (v c : Nat) : List Nat := fmt_llu v ++ [c] ++ [0]

/-- Value of a run of ASCII decimal digits, most significant first. -/
def decimalValue (ds : List Nat) : Nat :=
  ds.foldl (fun acc d => 10 * acc + (d - 48)) 0

/-- Outcome of `strtoull`: the converted value, the address stored in
`endptr`, and whether `errno` was set to `ERANGE`. -/
structure Strtoull where
  value : Nat
  endptr : Nat
  erange : Bool
  deriving DecidableEq, Repr

/-- Length of an optional sign at the head of `s`, and whether it is `-`. -/
def signOf : List Nat → Nat × Bool
  | 43 :: _ => (1, false)
  | 45 :: _ => (1, true)
  | _ => (0, false)

/-- C `strtoull(nptr, &endptr, 10)`: skip white space, accept one optional
sign, convert the longest run of decimal digits. Without a digit the value is
0 and `endptr` is `nptr`. A value that does not fit 64 bits gives
`ULLONG_MAX` and sets `ERANGE`; a leading `-` negates the value in the
unsigned type. -/
def strtoull (mem : List Nat) (nptr : Nat) : Strtoull :=
  let s := mem.drop nptr
  let ws := (s.takeWhile isspace).length
  let s1 := s.drop ws
  let sg := signOf s1
  let ds := (s1.drop sg.1).takeWhile isdigit
  if ds.length = 0 then
    { value := 0, endptr := nptr, erange := false }
  else
    let n := decimalValue ds
    let endptr := nptr + ws + sg.1 + ds.length
    if WORD ≤ n then
      { value := WORD - 1, endptr := endptr, erange := true }
    else
      { value := if sg.2 then (WORD - n) % WORD else n, endptr := endptr, erange := false }

/-- The one fatal condition of the decoder: the "corrupt file?" message
followed by `exit(EXIT_FAILURE)`. -/
inductive Fatal where
  | FormatCorrupt
  deriving DecidableEq, Repr

/-- Diagnostics that `read_int` prints without terminating. -/
inductive Diag where
  | StringNotConverted
  | IntegerNotRead
  deriving DecidableEq, Repr

/-- `xfwrite(ptr, size, stream)`: nothing is written for size 0, otherwise
the `size` bytes at `ptr` are appended to the stream. -/
def xfwrite (ptr : List Nat) (size : Nat) (stream : List Nat) : List Nat :=
  if size ≠ 0 then stream ++ ptr.take size else stream

/-- `write_int(value, to)`: format into `buf`, write `strlen(buf)` bytes. -/
def write_int (SEPARATOR : Nat) (value : Nat) (sink : List Nat) : List Nat :=
  let buf := sprintf_llu_c (value % WORD) SEPARATOR
  xfwrite buf (strlen buf) sink

/-- `write_binary_string(string, len, to)`. -/
def write_binary_string (string : List Nat) (len : Nat) (sink : List Nat) : List Nat :=
  xfwrite string len sink

/-- `write_string(string, to)`: the string up to its NUL, then the
one-byte array `sep`. -/
def write_string (SEPARATOR : Nat) (string : List Nat) (sink : List Nat) : List Nat :=
  let sep := [SEPARATOR]
  xfwrite sep 1 (xfwrite string (strlen string) sink)

/-- What `read_int` leaves behind when it returns: the result, the updated
`*from`, `errno`, and the diagnostics printed. -/
structure IntRead where
  value : Nat
  cursor : Nat
  errno : Nat
  diags : List Diag
  deriving DecidableEq, Repr

/-- `read_int(from, max)`, with `errno` as it is on entry. -/
def read_int (SEPARATOR : Nat) (mem : List Nat) (errno : Nat) (cursor max : Nat) :
    Except Fatal IntRead :=
  match strchr mem cursor SEPARATOR with
  | none => .error .FormatCorrupt
  | some separator =>
    if separator > max then .error .FormatCorrupt
    else
      let r := strtoull mem cursor
      let errno1 := if r.erange then ERANGE else errno
      let d1 := if errno1 = ERANGE then [Diag.StringNotConverted] else []
      let d2 := if r.value = 0 ∧ r.endptr ≠ separator then [Diag.IntegerNotRead] else []
      .ok { value := r.value, cursor := r.endptr + 1, errno := errno1, diags := d1 ++ d2 }

/-- A block returned by `malloc`: `size` bytes of indeterminate content
(`none`). The request is taken to be granted; `xmalloc_or_exit` has the exit
taken when it is not. -/
def xmalloc (size : Nat) : List (Option Nat) := List.replicate size none

/-- `memcpy(dest, src, n)` with `src` the `n` bytes copied: they replace the
first `n` bytes of `dest`, which is taken to hold that many;
`memcpy_or_overrun` has the case in which it does not. -/
def memcpy (dest : List (Option Nat)) (src : List Nat) : List (Option Nat) :=
  src.map some ++ dest.drop src.length

/-- The `len` bytes of memory starting at address `a`. -/
def readBytes (mem : List Nat) (a len : Nat) : List Nat :=
  (List.range len).map (fun i => peek mem (a + i))

/-- What the string readers leave behind when they return: the allocated
buffer and the updated `*from`. -/
structure StrRead where
  result : List (Option Nat)
  cursor : Nat
  deriving DecidableEq, Repr

/-- `read_binary_string(from, len, max)`; `len` is a `size_t`. -/
def read_binary_string (mem : List Nat) (cursor len max : Nat) : Except Fatal StrRead :=
  if (cursor + len) % WORD > max then .error .FormatCorrupt
  else
    let result := memcpy (xmalloc ((len + 1) % WORD)) (readBytes mem cursor len)
    .ok { result := result, cursor := (cursor + len) % WORD }

/-- `read_string(from, max)`: `len` is the pointer difference
`separator - *from` converted to `size_t`. -/
def read_string (SEPARATOR : Nat) (mem : List Nat) (cursor max : Nat) : Except Fatal StrRead :=
  let separator := strchr mem cursor SEPARATOR
  let len := (ptrValue separator + (WORD - cursor % WORD)) % WORD
  match read_binary_string mem cursor len max with
  | .error e => .error e
  | .ok r => .ok { r with cursor := r.cursor + 1 }

/-- Size of the scratch buffer of `write_int`, `char buf[32]`. -/
def WRITE_INT_BUF : Nat := 32

/-! ### `metaentry.h`: the difference flags -/

/-- The value of `DIFF_NONE`. -/
def DIFF_NONE : Nat := 0x00

/-- The value of `DIFF_OWNER`. -/
def DIFF_OWNER : Nat := 0x01

/-- The value of `DIFF_GROUP`. -/
def DIFF_GROUP : Nat := 0x02

/-- The value of `DIFF_MODE`. -/
def DIFF_MODE : Nat := 0x04

/-- The value of `DIFF_TYPE`. -/
def DIFF_TYPE : Nat := 0x08

/-- The value of `DIFF_MTIME`. -/
def DIFF_MTIME : Nat := 0x10

/-- The value of `DIFF_XATTR`. -/
def DIFF_XATTR : Nat := 0x20

/-- The value of `DIFF_ADDED`. -/
def DIFF_ADDED : Nat := 0x40

/-- The value of `DIFF_DELE`. -/
def DIFF_DELE : Nat := 0x80

/-- The eight flags, in the order of their definition. -/
def DIFF_FLAGS : List Nat :=
  [DIFF_OWNER, DIFF_GROUP, DIFF_MODE, DIFF_TYPE, DIFF_MTIME, DIFF_XATTR, DIFF_ADDED, DIFF_DELE]

/-- A set of difference flags: one membership bit for each flag. -/
structure DiffSet where
  owner : Bool
  group : Bool
  mode : Bool
  type : Bool
  mtime : Bool
  xattr : Bool
  added : Bool
  dele : Bool
  deriving DecidableEq, Repr

/-- The statement `mask |= flag`, executed when the flag is in the set. -/
def orFlag (present : Bool) (flag mask : Nat) : Nat :=
  if present then mask ||| flag else mask

/-- The bitmask of a set: its flags OR-ed one after the other into
`DIFF_NONE`. -/
def DiffSet.mask (s : DiffSet) : Nat :=
  orFlag s.dele DIFF_DELE (orFlag s.added DIFF_ADDED (orFlag s.xattr DIFF_XATTR
    (orFlag s.mtime DIFF_MTIME (orFlag s.type DIFF_TYPE (orFlag s.mode DIFF_MODE
      (orFlag s.group DIFF_GROUP (orFlag s.owner DIFF_OWNER DIFF_NONE)))))))

/-- The test `mask & flag`. -/
def hasFlag (mask flag : Nat) : Bool := mask &&& flag != 0

/-- The set of flags read back from a bitmask. -/
def DiffSet.ofMask (m : Nat) : DiffSet :=
  { owner := hasFlag m DIFF_OWNER, group := hasFlag m DIFF_GROUP, mode := hasFlag m DIFF_MODE,
    type := hasFlag m DIFF_TYPE, mtime := hasFlag m DIFF_MTIME, xattr := hasFlag m DIFF_XATTR,
    added := hasFlag m DIFF_ADDED, dele := hasFlag m DIFF_DELE }

/-- The empty set of flags. -/
def DiffSet.empty : DiffSet :=
  { owner := false, group := false, mode := false, type := false, mtime := false,
    xattr := false, added := false, dele := false }

/-! ### `metastore.h`: the file header -/

/-- Bytes of an ASCII string literal of the C source. -/
def literal (s : String) : List Nat := s.toList.map Char.toNat

/-- The literal `SIGNATURE`. -/
def SIGNATURE : List Nat := literal "MeTaSt00r3"

/-- The value of `SIGNATURELEN`. -/
def SIGNATURELEN : Nat := 10

/-- The literal `VERSION`. -/
def VERSION : List Nat := literal "TEXT0001"

/-- The value of `VERSIONLEN`. -/
def VERSIONLEN : Nat := 8

/-! ### `utils.c`: the cached group and user tables -/

/-- The C string held in `s`: its bytes before the first NUL. -/
def cstr (s : List Nat) : List Nat := s.take (strlen s)

/-- C `strcmp` on two strings (a NUL past the end of each is implicit): 0
when they are equal, otherwise the difference of the first two bytes that
differ. -/
def strcmp : List Nat → List Nat → Int
  | [], [] => 0
  | [], b :: _ => -(b : Int)
  | a :: _, [] => (a : Int)
  | a :: as, b :: bs =>
    if a ≠ b then (a : Int) - (b : Int) else if a = 0 then 0 else strcmp as bs

/-- The fields of `struct group` that the cache fills; `none` is the null
pointer of a zeroed entry. -/
structure group where
  gr_name : Option (List Nat)
  gr_gid : Nat
  deriving DecidableEq, Repr

/-- The fields of `struct passwd` that the cache fills. -/
structure passwd where
  pw_name : Option (List Nat)
  pw_uid : Nat
  deriving DecidableEq, Repr

/-- The table `create_group_table` builds when `getgrent` enumerates `db`:
one entry for each group, holding a duplicate of its name and its id, then
the zeroed entry that ends the table. -/
def create_group_table (db : List (List Nat × Nat)) : List group :=
  db.map (fun e => { gr_name := some e.1, gr_gid := e.2 }) ++ [{ gr_name := none, gr_gid := 0 }]

/-- The table `create_passwd_table` builds when `getpwent` enumerates `db`. -/
def create_passwd_table (db : List (List Nat × Nat)) : List passwd :=
  db.map (fun e => { pw_name := some e.1, pw_uid := e.2 }) ++ [{ pw_name := none, pw_uid := 0 }]

/-- The loop of `xgetgrnam` from index `i` on, `t` being the entries from
`gtable[i]` on; the result is the index of the entry whose address is
returned, `none` for `NULL`. -/
def xgetgrnam_loop (name : List Nat) : List group → Nat → Option Nat
  | [], _ => none
  | g :: rest, i =>
    match g.gr_name with
    | none => none
    | some gr_name => if strcmp name gr_name = 0 then some i else xgetgrnam_loop name rest (i + 1)

/-- `xgetgrnam(name)` on the cached table. -/
def xgetgrnam (gtable : List group) (name : List Nat) : Option Nat :=
  xgetgrnam_loop name gtable 0

/-- The loop of `xgetgrgid` from index `i` on. -/
def xgetgrgid_loop (gid : Nat) : List group → Nat → Option Nat
  | [], _ => none
  | g :: rest, i =>
    match g.gr_name with
    | none => none
    | some _ => if g.gr_gid = gid then some i else xgetgrgid_loop gid rest (i + 1)

/-- `xgetgrgid(gid)` on the cached table. -/
def xgetgrgid (gtable : List group) (gid : Nat) : Option Nat :=
  xgetgrgid_loop gid gtable 0

/-- The loop of `xgetpwnam` from index `i` on. -/
def xgetpwnam_loop (name : List Nat) : List passwd → Nat → Option Nat
  | [], _ => none
  | g :: rest, i =>
    match g.pw_name with
    | none => none
    | some pw_name => if strcmp name pw_name = 0 then some i else xgetpwnam_loop name rest (i + 1)

/-- `xgetpwnam(name)` on the cached table. -/
def xgetpwnam (ptable : List passwd) (name : List Nat) : Option Nat :=
  xgetpwnam_loop name ptable 0

/-- The loop of `xgetpwuid` from index `i` on. -/
def xgetpwuid_loop (uid : Nat) : List passwd → Nat → Option Nat
  | [], _ => none
  | g :: rest, i =>
    match g.pw_name with
    | none => none
    | some _ => if g.pw_uid = uid then some i else xgetpwuid_loop uid rest (i + 1)

/-- `xgetpwuid(uid)` on the cached table. -/
def xgetpwuid (ptable : List passwd) (uid : Nat) : Option Nat :=
  xgetpwuid_loop uid ptable 0

/-- Index `i` holds the first element of `l`, in order, that satisfies `p`. -/
def FirstMatch {α : Type} (p : α → Prop) (l : List α) (i : Nat) : Prop :=
  (∃ e, l[i]? = some e ∧ p e) ∧ ∀ j e, j < i → l[j]? = some e → ¬ p e

/-! ### `utils.c`: console messages -/

/-- The value of `MSG_NORMAL`. -/
def MSG_NORMAL : Int := 0

/-- The value of `MSG_DEBUG`. -/
def MSG_DEBUG : Int := 1

/-- The value of `MSG_QUIET`. -/
def MSG_QUIET : Int := -1

/-- The value of `MSG_ERROR`. -/
def MSG_ERROR : Int := -2

/-- The value of `MSG_CRITICAL`. -/
def MSG_CRITICAL : Int := -3

/-- The state `msg` works on: the static `verbosity` and what has been
printed on the two output streams. An `int` is a mathematical integer here;
C leaves signed overflow undefined. -/
structure Console where
  verbosity : Int
  out : List Nat
  err : List Nat
  deriving DecidableEq, Repr

/-- The state at program start: `verbosity = 0`, nothing printed. -/
def Console.initial : Console := { verbosity := 0, out := [], err := [] }

/-- `adjust_verbosity(adj)`. -/
def adjust_verbosity (adj : Int) (c : Console) : Console :=
  { c with verbosity := c.verbosity + adj }

/-- `msg(level, fmt, ...)`, `text` being what `vfprintf` formats from `fmt`
and its arguments; the result is the value returned, the number of
characters `vfprintf` printed. -/
def msg (level : Int) (text : List Nat) (c : Console) : Int × Console :=
  if level > c.verbosity then (0, c)
  else if level < MSG_QUIET then ((text.length : Int), { c with err := c.err ++ text })
  else ((text.length : Int), { c with out := c.out ++ text })

/-! ### `utils.c`: the string readers, with the outcome of `malloc` explicit -/

/-- The ways `read_binary_string` and `read_string` end without returning:
the corrupt-file exit of the bounds test, the exit of `xmalloc` when `malloc`
returns `NULL`, and a `memcpy` that writes past the block it was given
(undefined behaviour). -/
inductive Exit where
  | FormatCorrupt
  | MallocFailed
  | Overrun
  deriving DecidableEq, Repr

/-- `xmalloc(size)` with `malloc` as an oracle: `grant size` tells whether
`malloc(size)` returns a block. A block is `size` bytes of indeterminate
content; without a block `xmalloc` prints "Failed to malloc" and exits. -/
def xmalloc_or_exit (grant : Nat → Bool) (size : Nat) : Except Exit (List (Option Nat)) :=
  if grant size then .ok (List.replicate size none) else .error .MallocFailed

/-- `memcpy(dest, src, n)` with `src` the `n` bytes copied: they replace the
first `n` bytes of `dest` when `dest` has that many. -/
def memcpy_or_overrun (dest : List (Option Nat)) (src : List Nat) :
    Except Exit (List (Option Nat)) :=
  if src.length ≤ dest.length then .ok (src.map some ++ dest.drop src.length)
  else .error .Overrun

/-- `read_binary_string(from, len, max)` with the outcome of `malloc`
explicit; `len` is a `size_t`. -/
def read_binary_string_or_exit (grant : Nat → Bool) (mem : List Nat) (cursor len max : Nat) :
    Except Exit StrRead :=
  if (cursor + len) % WORD > max then .error .FormatCorrupt
  else
    match xmalloc_or_exit grant ((len + 1) % WORD) with
    | .error e => .error e
    | .ok block =>
      match memcpy_or_overrun block (readBytes mem cursor len) with
      | .error e => .error e
      | .ok result => .ok { result := result, cursor := (cursor + len) % WORD }

/-- `read_string(from, max)` with the outcome of `malloc` explicit. -/
def read_string_or_exit (grant : Nat → Bool) (SEPARATOR : Nat) (mem : List Nat)
    (cursor max : Nat) : Except Exit StrRead :=
  let separator := strchr mem cursor SEPARATOR
  let len := (ptrValue separator + (WORD - cursor % WORD)) % WORD
  match read_binary_string_or_exit grant mem cursor len max with
  | .error e => .error e
  | .ok r => .ok { r with cursor := r.cursor + 1 }

/-- A `malloc` that grants the requests of at most 4096 bytes. -/
def small_heap (size : Nat) : Bool := decide (size ≤ 4096)

/-! ## Library lemmas -/

theorem peek_drop (mem : List Nat) (s i : Nat) : (mem.drop s).getD i 0 = peek mem (s + i) := by
  simp [peek, List.getD_eq_getElem?_getD, List.getElem?_drop]

theorem strchrFrom_some (c : Nat) :
    ∀ (s : List Nat) (p q : Nat), strchrFrom s p c = some q →
      p ≤ q ∧ s.getD (q - p) 0 = c ∧ ∀ i, i < q - p → s.getD i 0 ≠ c ∧ s.getD i 0 ≠ 0
  | [], p, q, h => by
    simp only [strchrFrom] at h
    split at h
    · rename_i hc
      simp only [Option.some.injEq] at h
      subst h
      simp [hc]
    · simp at h
  | b :: rest, p, q, h => by
    simp only [strchrFrom] at h
    split at h
    · rename_i hb
      simp only [Option.some.injEq] at h
      subst h
      simp [hb]
    · rename_i hb
      split at h
      · simp at h
      · rename_i hb0
        obtain ⟨h1, h2, h3⟩ := strchrFrom_some c rest (p + 1) q h
        have hq : q - p = (q - (p + 1)) + 1 := by omega
        refine ⟨by omega, ?_, ?_⟩
        · rw [hq]
          simpa using h2
        · intro i hi
          cases i with
          | zero => simpa using ⟨hb, hb0⟩
          | succ j =>
            have := h3 j (by omega)
            simpa using this

theorem strchr_some (mem : List Nat) (s c q : Nat) (h : strchr mem s c = some q) :
    s ≤ q ∧ peek mem q = c := by
  obtain ⟨h1, h2, _⟩ := strchrFrom_some c (mem.drop s) s q h
  refine ⟨h1, ?_⟩
  rw [peek_drop] at h2
  rwa [show s + (q - s) = q by omega] at h2

theorem strchrFrom_append (c : Nat) (post : List Nat) :
    ∀ (ds : List Nat) (p : Nat), (∀ b ∈ ds, b ≠ c ∧ b ≠ 0) →
      strchrFrom (ds ++ c :: post) p c = some (p + ds.length)
  | [], p, _ => by simp [strchrFrom]
  | b :: rest, p, h => by
    have hb := h b (by simp)
    have ih := strchrFrom_append c post rest (p + 1) (fun x hx => h x (by simp [hx]))
    rw [List.cons_append, strchrFrom, if_neg hb.1, if_neg hb.2, ih, List.length_cons]
    congr 1
    omega

theorem strchr_append (c : Nat) (pre ds post : List Nat) (h : ∀ b ∈ ds, b ≠ c ∧ b ≠ 0) :
    strchr (pre ++ (ds ++ c :: post)) pre.length c = some (pre.length + ds.length) := by
  simp only [strchr, List.drop_left]
  exact strchrFrom_append c post ds pre.length h

theorem strlen_append_nul (rest : List Nat) :
    ∀ (ds : List Nat), (∀ b ∈ ds, b ≠ 0) → strlen (ds ++ 0 :: rest) = ds.length
  | [], _ => by simp [strlen]
  | b :: tl, h => by
    have hb := h b (by simp)
    have ih := strlen_append_nul rest tl (fun x hx => h x (by simp [hx]))
    simp [strlen, hb, ih]

theorem strlen_eq_length : ∀ (ds : List Nat), (∀ b ∈ ds, b ≠ 0) → strlen ds = ds.length
  | [], _ => by simp [strlen]
  | b :: tl, h => by
    have hb := h b (by simp)
    have ih := strlen_eq_length tl (fun x hx => h x (by simp [hx]))
    simp [strlen, hb, ih]

theorem strlen_le_length : ∀ (ds : List Nat), strlen ds ≤ ds.length
  | [] => by simp [strlen]
  | b :: tl => by
    have ih := strlen_le_length tl
    simp only [strlen, List.length_cons]
    split <;> omega

theorem takeWhile_append_stop (p : Nat → Bool) (c : Nat) (post : List Nat) (hc : p c = false) :
    ∀ (ds : List Nat), (∀ b ∈ ds, p b = true) → (ds ++ c :: post).takeWhile p = ds
  | [], _ => by simp [List.takeWhile, hc]
  | b :: tl, h => by
    have hb := h b (by simp)
    have ih := takeWhile_append_stop p c post hc tl (fun x hx => h x (by simp [hx]))
    simp [List.takeWhile, hb, ih]

theorem readBytes_length (mem : List Nat) (a len : Nat) : (readBytes mem a len).length = len := by
  simp [readBytes]

theorem readBytes_append (pre s post : List Nat) :
    readBytes (pre ++ (s ++ post)) pre.length s.length = s := by
  apply List.ext_getElem
  · simp [readBytes]
  · intro i h1 h2
    simp [readBytes, peek, List.getD_eq_getElem?_getD, List.getElem?_append_right,
      List.getElem?_append_left, h2]

/-! ## The decimal text of `%llu` -/

theorem fmt_llu_ne_nil (v : Nat) : fmt_llu v ≠ [] := by
  unfold fmt_llu
  split
  · simp
  · rename_i hv
    simp [Nat.digits_ne_nil_iff_ne_zero, hv]

theorem fmt_llu_isdigit (v : Nat) : ∀ d ∈ fmt_llu v, isdigit d = true := by
  intro d hd
  unfold fmt_llu at hd
  split at hd
  · simp at hd
    subst hd
    decide
  · simp only [List.mem_map, List.mem_reverse] at hd
    obtain ⟨x, hx, rfl⟩ := hd
    have := Nat.digits_lt_base (by norm_num : 1 < 10) hx
    simp [isdigit]
    omega

theorem decimalValue_map_reverse (L : List Nat) :
    decimalValue (L.reverse.map (fun d => d + 48)) = Nat.ofDigits 10 L := by
  induction L with
  | nil => simp [decimalValue]
  | cons a tl ih =>
    simp only [decimalValue] at ih
    simp only [decimalValue, List.reverse_cons, List.map_append, List.map_cons, List.map_nil,
      List.foldl_append, List.foldl_cons, List.foldl_nil, ih, Nat.ofDigits_cons]
    push_cast
    omega

theorem decimalValue_fmt_llu (v : Nat) : decimalValue (fmt_llu v) = v := by
  unfold fmt_llu
  split
  · rename_i hv
    simp [decimalValue, hv]
  · rw [decimalValue_map_reverse, Nat.ofDigits_digits]

theorem fmt_llu_head (v : Nat) (h : (fmt_llu v).head? = some 48) : fmt_llu v = [48] := by
  unfold fmt_llu at h ⊢
  split
  · rfl
  · rename_i hv
    exfalso
    have hne : Nat.digits 10 v ≠ [] := by simp [Nat.digits_ne_nil_iff_ne_zero, hv]
    have hl := Nat.getLast_digit_ne_zero 10 hv
    rw [if_neg hv, List.head?_map, List.head?_reverse, List.getLast?_eq_getLast _ hne] at h
    simp at h
    exact hl h

theorem fmt_llu_ne_zero (v : Nat) : ∀ d ∈ fmt_llu v, d ≠ 0 := by
  intro d hd h0
  have := fmt_llu_isdigit v d hd
  subst h0
  simp [isdigit] at this

/-! ## The writers -/

theorem xfwrite_eq (ptr : List Nat) (size : Nat) (stream : List Nat) :
    xfwrite ptr size stream = stream ++ ptr.take size := by
  unfold xfwrite
  split
  · rfl
  · rename_i h
    simp only [ne_eq, Decidable.not_not] at h
    simp [h]

theorem write_int_eq (sep v : Nat) (sink : List Nat) (hsep : sep ≠ 0) :
    write_int sep v sink = sink ++ fmt_llu (v % WORD) ++ [sep] := by
  have hlen : strlen (sprintf_llu_c (v % WORD) sep) = (fmt_llu (v % WORD) ++ [sep]).length := by
    have := strlen_append_nul [] (fmt_llu (v % WORD) ++ [sep]) (by
      intro b hb
      rcases List.mem_append.mp hb with h | h
      · exact fmt_llu_ne_zero _ b h
      · simp at h
        omega)
    simpa [sprintf_llu_c] using this
  simp only [write_int, xfwrite_eq]
  rw [hlen]
  simp only [sprintf_llu_c]
  rw [List.take_left, List.append_assoc]

theorem write_int_nul (v : Nat) (sink : List Nat) :
    write_int 0 v sink = sink ++ fmt_llu (v % WORD) := by
  have hlen : strlen (sprintf_llu_c (v % WORD) 0) = (fmt_llu (v % WORD)).length := by
    have := strlen_append_nul [0] (fmt_llu (v % WORD)) (fmt_llu_ne_zero _)
    simpa [sprintf_llu_c] using this
  simp only [write_int, xfwrite_eq, hlen]
  simp [sprintf_llu_c, List.append_assoc]

theorem write_string_eq (sep : Nat) (s sink : List Nat) :
    write_string sep s sink = sink ++ s.take (strlen s) ++ [sep] := by
  simp [write_string, xfwrite_eq]

/-! ## The readers -/

theorem strtoull_digits (pre ds post : List Nat) (c : Nat) (hne : ds ≠ [])
    (hds : ∀ d ∈ ds, isdigit d = true) (hc : isdigit c = false)
    (hv : decimalValue ds < WORD) :
    strtoull (pre ++ (ds ++ c :: post)) pre.length
      = { value := decimalValue ds, endptr := pre.length + ds.length, erange := false } := by
  obtain ⟨d0, tl, rfl⟩ := List.exists_cons_of_ne_nil hne
  have hd0 : isdigit d0 = true := hds d0 (by simp)
  have hsp : isspace d0 = false := by
    simp only [isdigit, Bool.and_eq_true, decide_eq_true_eq] at hd0
    simp [isspace]
    omega
  have h43 : d0 ≠ 43 := by
    simp only [isdigit, Bool.and_eq_true, decide_eq_true_eq] at hd0
    omega
  have h45 : d0 ≠ 45 := by
    simp only [isdigit, Bool.and_eq_true, decide_eq_true_eq] at hd0
    omega
  have hsg : signOf (d0 :: (tl ++ c :: post)) = (0, false) := by
    unfold signOf
    split
    · rename_i heq
      simp at heq
      exact absurd heq.1 h43
    · rename_i heq
      simp at heq
      exact absurd heq.1 h45
    · rfl
  have htw := takeWhile_append_stop isdigit c post hc (d0 :: tl) hds
  simp only [List.cons_append] at htw
  simp only [strtoull, List.drop_left, List.cons_append, List.takeWhile_cons, hsp,
    Bool.false_eq_true, if_false, List.length_nil, List.drop_zero, hsg, htw, List.length_cons]
  rw [if_neg (by omega), if_neg (by simpa using hv)]
  simp

theorem read_binary_string_ok (mem : List Nat) (cursor len max : Nat)
    (h : (cursor + len) % WORD ≤ max) :
    read_binary_string mem cursor len max
      = .ok { result := memcpy (xmalloc ((len + 1) % WORD)) (readBytes mem cursor len),
              cursor := (cursor + len) % WORD } := by
  unfold read_binary_string
  rw [if_neg (by omega)]

theorem memcpy_take (dest : List (Option Nat)) (src : List Nat) :
    (memcpy dest src).take src.length = src.map some := by
  unfold memcpy
  rw [show src.length = (src.map some).length by simp, List.take_left]

theorem strtoull_endptr_ge (mem : List Nat) (nptr : Nat) :
    nptr ≤ (strtoull mem nptr).endptr := by
  unfold strtoull
  simp only
  split
  · exact Nat.le_refl _
  · split
    · simp only
      omega
    · simp only
      omega

theorem read_int_ok_iff (sep errno cursor max : Nat) (mem : List Nat) (r : IntRead) :
    read_int sep mem errno cursor max = .ok r ↔
      ∃ q, strchr mem cursor sep = some q ∧ q ≤ max ∧
        r = { value := (strtoull mem cursor).value,
              cursor := (strtoull mem cursor).endptr + 1,
              errno := if (strtoull mem cursor).erange then ERANGE else errno,
              diags :=
                (if (if (strtoull mem cursor).erange then ERANGE else errno) = ERANGE
                  then [Diag.StringNotConverted] else []) ++
                (if (strtoull mem cursor).value = 0 ∧ (strtoull mem cursor).endptr ≠ q
                  then [Diag.IntegerNotRead] else []) } := by
  unfold read_int
  cases hs : strchr mem cursor sep with
  | none => simp
  | some q =>
    simp only
    by_cases hq : q > max
    · rw [if_pos hq]
      constructor
      · intro h
        cases h
      · rintro ⟨q1, h1, h2, -⟩
        simp only [Option.some.injEq] at h1
        omega
    · rw [if_neg hq]
      constructor
      · intro h
        injection h with h
        exact ⟨q, rfl, by omega, h.symm⟩
      · rintro ⟨q1, h1, -, h3⟩
        simp only [Option.some.injEq] at h1
        subst h1
        rw [h3]

theorem read_string_ok (sep cursor max len : Nat) (mem : List Nat)
    (hlen : (ptrValue (strchr mem cursor sep) + (WORD - cursor % WORD)) % WORD = len)
    (hb : (cursor + len) % WORD ≤ max) :
    read_string sep mem cursor max
      = .ok { result := memcpy (xmalloc ((len + 1) % WORD)) (readBytes mem cursor len),
              cursor := (cursor + len) % WORD + 1 } := by
  unfold read_string
  simp only [hlen]
  rw [read_binary_string_ok _ _ _ _ hb]

theorem takeWhile_append_all (p : Nat → Bool) (rest : List Nat) :
    ∀ (ds : List Nat), (∀ b ∈ ds, p b = true) →
      (ds ++ rest).takeWhile p = ds ++ rest.takeWhile p
  | [], _ => by simp
  | b :: tl, h => by
    have hb := h b (by simp)
    have ih := takeWhile_append_all p rest tl (fun x hx => h x (by simp [hx]))
    simp [List.takeWhile, hb, ih]

theorem foldl_decimal_ge : ∀ (ds : List Nat) (acc : Nat),
    acc ≤ ds.foldl (fun a d => 10 * a + (d - 48)) acc
  | [], acc => by simp
  | d :: tl, acc => by
    have ih := foldl_decimal_ge tl (10 * acc + (d - 48))
    simp only [List.foldl_cons]
    omega

theorem decimalValue_append_ge (ds more : List Nat) :
    decimalValue ds ≤ decimalValue (ds ++ more) := by
  simp only [decimalValue, List.foldl_append]
  exact foldl_decimal_ge more _

/-- `strtoull` started on a digit: the run converted is the longest run of
digits, the value saturates when the run does not fit 64 bits. -/
theorem strtoull_digit_run (pre ds rest : List Nat) (hne : ds ≠ [])
    (hds : ∀ d ∈ ds, isdigit d = true) :
    strtoull (pre ++ (ds ++ rest)) pre.length
      = if WORD ≤ decimalValue (ds ++ rest.takeWhile isdigit) then
          { value := WORD - 1,
            endptr := pre.length + (ds ++ rest.takeWhile isdigit).length, erange := true }
        else
          { value := decimalValue (ds ++ rest.takeWhile isdigit),
            endptr := pre.length + (ds ++ rest.takeWhile isdigit).length, erange := false } := by
  obtain ⟨d0, tl, rfl⟩ := List.exists_cons_of_ne_nil hne
  have hd0 : isdigit d0 = true := hds d0 (by simp)
  have hsp : isspace d0 = false := by
    simp only [isdigit, Bool.and_eq_true, decide_eq_true_eq] at hd0
    simp [isspace]
    omega
  have h43 : d0 ≠ 43 := by
    simp only [isdigit, Bool.and_eq_true, decide_eq_true_eq] at hd0
    omega
  have h45 : d0 ≠ 45 := by
    simp only [isdigit, Bool.and_eq_true, decide_eq_true_eq] at hd0
    omega
  have hsg : signOf (d0 :: (tl ++ rest)) = (0, false) := by
    unfold signOf
    split
    · rename_i heq
      simp at heq
      exact absurd heq.1 h43
    · rename_i heq
      simp at heq
      exact absurd heq.1 h45
    · rfl
  have htw := takeWhile_append_all isdigit rest (d0 :: tl) hds
  simp only [List.cons_append] at htw
  simp only [strtoull, List.drop_left, List.cons_append, List.takeWhile_cons, hsp,
    Bool.false_eq_true, if_false, List.length_nil, List.drop_zero, hsg, htw, List.length_cons]
  rw [if_neg (by omega)]
  split <;> simp

theorem fmt_llu_length (v : Nat) (hv : v < WORD) : (fmt_llu v).length ≤ 20 := by
  unfold fmt_llu
  split
  · simp
  · rename_i h0
    simp only [List.length_map, List.length_reverse]
    by_contra hlen
    have h21 : 21 ≤ (Nat.digits 10 v).length := by omega
    have h1 := Nat.base_pow_length_digits_le 10 v (by norm_num) h0
    have h2 : 10 ^ 21 ≤ 10 ^ (Nat.digits 10 v).length :=
      Nat.pow_le_pow_right (by norm_num) h21
    unfold WORD at hv
    omega

/-! ## The cached tables -/

theorem cstr_nil : cstr [] = [] := by simp [cstr]

theorem cstr_cons (a : Nat) (as : List Nat) :
    cstr (a :: as) = if a = 0 then [] else a :: cstr as := by
  unfold cstr
  simp only [strlen]
  split <;> simp

theorem strcmp_eq_zero_iff : ∀ (a b : List Nat), strcmp a b = 0 ↔ cstr a = cstr b
  | [], [] => by simp [strcmp]
  | [], b :: bs => by
    rw [cstr_nil, cstr_cons]
    simp only [strcmp]
    split <;> rename_i hb
    · simp [hb]
    · simp only [neg_eq_zero, Nat.cast_eq_zero, hb, false_iff]
      exact fun h => by cases h
  | a :: as, [] => by
    rw [cstr_nil, cstr_cons]
    simp only [strcmp]
    split <;> rename_i ha
    · simp [ha]
    · simp [ha]
  | a :: as, b :: bs => by
    have ih := strcmp_eq_zero_iff as bs
    rw [cstr_cons, cstr_cons]
    simp only [strcmp]
    by_cases hab : a = b
    · subst hab
      simp only [ne_eq, not_true_eq_false, if_false]
      by_cases ha : a = 0
      · simp [ha]
      · simp [ha, ih]
    · have hsub : (a : Int) - (b : Int) ≠ 0 := by omega
      simp only [ne_eq, hab, not_false_eq_true, if_true, hsub, false_iff]
      by_cases ha : a = 0 <;> by_cases hb : b = 0
      · omega
      · simp [ha, hb]
      · simp [ha, hb]
      · simp [ha, hb, hab]

theorem xgetgrnam_loop_eq (name : List Nat) :
    ∀ (db : List (List Nat × Nat)) (i : Nat),
      xgetgrnam_loop name
          (db.map (fun e => ({ gr_name := some e.1, gr_gid := e.2 } : group))
            ++ [{ gr_name := none, gr_gid := 0 }]) i
        = db.findIdx? (fun e => decide (strcmp name e.1 = 0)) i
  | [], i => by simp [xgetgrnam_loop]
  | e :: tl, i => by
    have ih := xgetgrnam_loop_eq name tl (i + 1)
    simp only [List.map_cons, List.cons_append, xgetgrnam_loop, List.append_eq, ih,
      List.findIdx?_cons, decide_eq_true_eq]

theorem xgetgrgid_loop_eq (gid : Nat) :
    ∀ (db : List (List Nat × Nat)) (i : Nat),
      xgetgrgid_loop gid
          (db.map (fun e => ({ gr_name := some e.1, gr_gid := e.2 } : group))
            ++ [{ gr_name := none, gr_gid := 0 }]) i
        = db.findIdx? (fun e => decide (e.2 = gid)) i
  | [], i => by simp [xgetgrgid_loop]
  | e :: tl, i => by
    have ih := xgetgrgid_loop_eq gid tl (i + 1)
    simp only [List.map_cons, List.cons_append, xgetgrgid_loop, List.append_eq, ih,
      List.findIdx?_cons, decide_eq_true_eq]

theorem xgetpwnam_loop_eq (name : List Nat) :
    ∀ (db : List (List Nat × Nat)) (i : Nat),
      xgetpwnam_loop name
          (db.map (fun e => ({ pw_name := some e.1, pw_uid := e.2 } : passwd))
            ++ [{ pw_name := none, pw_uid := 0 }]) i
        = db.findIdx? (fun e => decide (strcmp name e.1 = 0)) i
  | [], i => by simp [xgetpwnam_loop]
  | e :: tl, i => by
    have ih := xgetpwnam_loop_eq name tl (i + 1)
    simp only [List.map_cons, List.cons_append, xgetpwnam_loop, List.append_eq, ih,
      List.findIdx?_cons, decide_eq_true_eq]

theorem xgetpwuid_loop_eq (uid : Nat) :
    ∀ (db : List (List Nat × Nat)) (i : Nat),
      xgetpwuid_loop uid
          (db.map (fun e => ({ pw_name := some e.1, pw_uid := e.2 } : passwd))
            ++ [{ pw_name := none, pw_uid := 0 }]) i
        = db.findIdx? (fun e => decide (e.2 = uid)) i
  | [], i => by simp [xgetpwuid_loop]
  | e :: tl, i => by
    have ih := xgetpwuid_loop_eq uid tl (i + 1)
    simp only [List.map_cons, List.cons_append, xgetpwuid_loop, List.append_eq, ih,
      List.findIdx?_cons, decide_eq_true_eq]

theorem findIdx?_eq_some_iff_firstMatch {α : Type} (p : α → Prop) [DecidablePred p]
    (l : List α) (i : Nat) :
    l.findIdx? (fun e => decide (p e)) = some i ↔ FirstMatch p l i := by
  rw [List.findIdx?_eq_some_iff_getElem]
  unfold FirstMatch
  constructor
  · rintro ⟨h, hp, hj⟩
    refine ⟨⟨l[i], List.getElem?_eq_getElem h, by simpa using hp⟩, ?_⟩
    intro j e hji hje
    obtain ⟨hjl, rfl⟩ := List.getElem?_eq_some.mp hje
    simpa using hj j hji
  · rintro ⟨⟨e, hie, hp⟩, hj⟩
    obtain ⟨hil, rfl⟩ := List.getElem?_eq_some.mp hie
    refine ⟨hil, by simpa using hp, ?_⟩
    intro j hji
    have hjl : j < l.length := Nat.lt_trans hji hil
    simpa using hj j l[j] hji (List.getElem?_eq_getElem hjl)

theorem findIdx?_eq_none_iff_forall {α : Type} (p : α → Prop) [DecidablePred p] (l : List α) :
    l.findIdx? (fun e => decide (p e)) = none ↔ ∀ e ∈ l, ¬ p e := by
  simp

theorem firstMatch_congr {α : Type} (p q : α → Prop) (h : ∀ e, p e ↔ q e) (l : List α)
    (i : Nat) : FirstMatch p l i ↔ FirstMatch q l i := by
  have hpq : p = q := funext fun e => propext (h e)
  rw [hpq]

theorem create_group_table_getElem? (db : List (List Nat × Nat)) (i : Nat) (e : List Nat × Nat)
    (h : db[i]? = some e) :
    (create_group_table db)[i]? = some { gr_name := some e.1, gr_gid := e.2 } := by
  obtain ⟨hi, rfl⟩ := List.getElem?_eq_some.mp h
  unfold create_group_table
  rw [List.getElem?_append_left (by simpa using hi)]
  simp [hi]

theorem create_passwd_table_getElem? (db : List (List Nat × Nat)) (i : Nat) (e : List Nat × Nat)
    (h : db[i]? = some e) :
    (create_passwd_table db)[i]? = some { pw_name := some e.1, pw_uid := e.2 } := by
  obtain ⟨hi, rfl⟩ := List.getElem?_eq_some.mp h
  unfold create_passwd_table
  rw [List.getElem?_append_left (by simpa using hi)]
  simp [hi]

/-! ## Console messages -/

theorem foldl_adjust_verbosity : ∀ (adjs : List Int) (c : Console),
    (adjs.foldl (fun c a => adjust_verbosity a c) c).verbosity = c.verbosity + adjs.sum
  | [], c => by simp
  | a :: tl, c => by
    have ih := foldl_adjust_verbosity tl (adjust_verbosity a c)
    rw [List.foldl_cons, ih]
    simp only [adjust_verbosity, List.sum_cons]
    omega

/-! ## The readers with the outcome of `malloc` explicit -/

/-- When `malloc` grants the request and the block holds the bytes copied,
the two embeddings of `read_binary_string` agree. -/
theorem read_binary_string_or_exit_granted (grant : Nat → Bool) (mem : List Nat)
    (cursor len max : Nat) (hg : grant ((len + 1) % WORD) = true)
    (hfit : len ≤ (len + 1) % WORD) :
    read_binary_string_or_exit grant mem cursor len max
      = match read_binary_string mem cursor len max with
        | .ok r => .ok r
        | .error _ => .error .FormatCorrupt := by
  unfold read_binary_string_or_exit read_binary_string
  by_cases hb : (cursor + len) % WORD > max
  · rw [if_pos hb, if_pos hb]
  · rw [if_neg hb, if_neg hb]
    simp [xmalloc_or_exit, hg, memcpy_or_overrun, readBytes_length, hfit, memcpy, xmalloc]

theorem memcpy_or_overrun_ne_corrupt (dest : List (Option Nat)) (src : List Nat) :
    ∀ e, memcpy_or_overrun dest src = .error e → e = .Overrun := by
  intro e h
  unfold memcpy_or_overrun at h
  split at h
  · cases h
  · injection h with h
    exact h.symm

/-- What `read_string` does when `strchr` returns the null pointer: the
length is `2^64 - cursor`, the sum of the bounds test wraps to 0, and the
outcome is decided by `malloc` and the copy alone. -/
theorem read_string_or_exit_null (grant : Nat → Bool) (sep cursor max : Nat) (mem : List Nat)
    (hnull : strchr mem cursor sep = none) (hlo : 1 ≤ cursor) (hhi : cursor < WORD) :
    read_string_or_exit grant sep mem cursor max
      = match xmalloc_or_exit grant ((WORD - cursor + 1) % WORD) with
        | .error e => .error e
        | .ok block =>
          match memcpy_or_overrun block (readBytes mem cursor (WORD - cursor)) with
          | .error e => .error e
          | .ok result => .ok { result := result, cursor := 0 + 1 } := by
  have hlen : (ptrValue (strchr mem cursor sep) + (WORD - cursor % WORD)) % WORD
      = WORD - cursor := by
    rw [hnull]
    simp only [ptrValue]
    unfold WORD at hhi ⊢
    omega
  have hsum : (cursor + (WORD - cursor)) % WORD = 0 := by
    unfold WORD at hhi ⊢
    omega
  unfold read_string_or_exit
  simp only [hlen]
  unfold read_binary_string_or_exit
  rw [hsum, if_neg (by omega)]
  cases xmalloc_or_exit grant ((WORD - cursor + 1) % WORD) with
  | error e => rfl
  | ok block =>
    simp only
    cases memcpy_or_overrun block (readBytes mem cursor (WORD - cursor)) with
    | error e => rfl
    | ok result => rfl

/-! ## Claims -/

/-- C1, as amended: for every 64-bit value `v` and every `SEPARATOR` that is
neither NUL nor a decimal digit, `read_int` run at the start of the bytes
`write_int` emitted for `v`, with the limit at or after the emitted separator,
returns `v` and advances the cursor by the number of bytes emitted. -/
theorem read_int_write_int (sep v errno max : Nat) (pre post : List Nat)
    (hdig : isdigit sep = false) (hnul : sep ≠ 0) (hv : v < WORD)
    (hmax : pre.length + (write_int sep v []).length ≤ max + 1) :
    ∃ r, read_int sep (pre ++ write_int sep v [] ++ post) errno pre.length max = .ok r ∧
      r.value = v ∧ r.cursor = pre.length + (write_int sep v []).length := by
  have hw : write_int sep v [] = fmt_llu v ++ [sep] := by
    rw [write_int_eq sep v [] hnul, Nat.mod_eq_of_lt hv, List.nil_append]
  rw [hw] at hmax ⊢
  have hmem : pre ++ (fmt_llu v ++ [sep]) ++ post = pre ++ (fmt_llu v ++ sep :: post) := by
    simp
  have hsc : strchr (pre ++ (fmt_llu v ++ sep :: post)) pre.length sep
      = some (pre.length + (fmt_llu v).length) := by
    apply strchr_append
    intro b hb
    refine ⟨?_, fmt_llu_ne_zero v b hb⟩
    intro hbs
    have := fmt_llu_isdigit v b hb
    rw [hbs, hdig] at this
    exact Bool.false_ne_true this
  have hst := strtoull_digits pre (fmt_llu v) post sep (fmt_llu_ne_nil v) (fmt_llu_isdigit v)
    hdig (by rw [decimalValue_fmt_llu]; exact hv)
  simp only [List.length_append, List.length_singleton] at hmax
  rw [hmem]
  unfold read_int
  rw [hsc]
  simp only
  rw [if_neg (by omega), hst]
  refine ⟨_, rfl, ?_, ?_⟩
  · exact decimalValue_fmt_llu v
  · simp only [List.length_append, List.length_singleton]
    omega

/-- C1, witness: the value 1234 written with a line feed as separator. -/
theorem read_int_write_int_witness :
    ∃ r, read_int 10 ([7] ++ write_int 10 1234 [] ++ [55]) 0 ([7] : List Nat).length 5 = .ok r ∧
      r.value = 1234 ∧ r.cursor = ([7] : List Nat).length + (write_int 10 1234 []).length :=
  read_int_write_int 10 1234 0 5 [7] [55] (by decide) (by decide) (by decide)
    (by rw [write_int_eq 10 1234 [] (by decide)]; norm_num [fmt_llu, WORD])

/-- C1, counterexample: with NUL as `SEPARATOR`, `write_int` emits the digit
`5` alone for the value 5; `read_int` run on memory that starts with that
byte, followed by the digit `7`, returns 57 and advances by three bytes, not
5 and the one byte emitted. -/
theorem read_int_write_int_nul_separator :
    write_int 0 5 [] = [53] ∧
    (∃ r, read_int 0 ([0] ++ write_int 0 5 [] ++ [55]) 0 1 3 = .ok r ∧
      r.value = 57 ∧ r.cursor = 4) ∧
    ¬ (∃ r, read_int 0 ([0] ++ write_int 0 5 [] ++ [55]) 0 1 3 = .ok r ∧
      r.value = 5 ∧ r.cursor = 1 + (write_int 0 5 []).length) := by
  have hw : write_int 0 5 [] = [53] := by
    rw [write_int_nul]
    norm_num [fmt_llu, WORD]
  rw [hw]
  refine ⟨rfl, ⟨_, rfl, rfl, rfl⟩, ?_⟩
  rintro ⟨r, hr, hval, -⟩
  have h2 : read_int 0 ([0] ++ [53] ++ [55]) 0 1 3
      = .ok { value := 57, cursor := 4, errno := 0, diags := [] } := rfl
  rw [h2] at hr
  injection hr with hr
  subst hr
  simp at hval

/-- C2: for every C string `s` (no NUL byte) that contains no separator
byte, `read_string` run at the start of the bytes `write_string` emitted for
`s`, with the limit at or after the emitted separator, returns a buffer whose
first `strlen(s)` bytes are the bytes of `s`, and advances the cursor by
`strlen(s) + 1`. -/
theorem read_string_write_string (sep max : Nat) (s pre post : List Nat)
    (hs : ∀ b ∈ s, b ≠ sep ∧ b ≠ 0)
    (hmax : pre.length + strlen s ≤ max) (hptr : max < WORD) :
    ∃ r, read_string sep (pre ++ write_string sep s [] ++ post) pre.length max = .ok r ∧
      r.result.take (strlen s) = s.map some ∧ r.cursor = pre.length + (strlen s + 1) := by
  have hlen : strlen s = s.length := strlen_eq_length s (fun b hb => (hs b hb).2)
  have hw : write_string sep s [] = s ++ [sep] := by
    rw [write_string_eq, hlen, List.take_length, List.nil_append]
  rw [hlen] at hmax ⊢
  rw [hw]
  have hmem : pre ++ (s ++ [sep]) ++ post = pre ++ (s ++ sep :: post) := by simp
  have hsc := strchr_append sep pre s post hs
  have hl : (pre.length + s.length + (WORD - pre.length % WORD)) % WORD = s.length := by
    unfold WORD at hptr ⊢
    omega
  have hb : (pre.length + s.length) % WORD ≤ max := by
    unfold WORD at hptr ⊢
    omega
  have hc : (pre.length + s.length) % WORD = pre.length + s.length := by
    unfold WORD at hptr ⊢
    omega
  rw [hmem]
  unfold read_string
  simp only [hsc, ptrValue, hl]
  rw [read_binary_string_ok _ _ _ _ hb]
  refine ⟨_, rfl, ?_, ?_⟩
  · simp only
    rw [readBytes_append]
    exact memcpy_take _ s
  · simp only
    omega

/-- C2, witness: the string "ab" written with a line feed as separator. -/
theorem read_string_write_string_witness :
    ∃ r, read_string 10 ([7] ++ write_string 10 [97, 98] [] ++ [55]) ([7] : List Nat).length 3
        = .ok r ∧
      r.result.take (strlen [97, 98]) = [97, 98].map some ∧
      r.cursor = ([7] : List Nat).length + (strlen [97, 98] + 1) :=
  read_string_write_string 10 3 [97, 98] [7] [55] (by decide) (by decide) (by decide)

/-- C3, evaluated at the failing input: for every `SEPARATOR`, memory whose
byte at address 1 is the separator, cursor 1 and limit 1. Both `read_int` and
`read_string` return normally and leave the cursor beyond the limit: the byte
at the limit itself was consumed. -/
theorem read_past_limit (sep errno b : Nat) :
    (∃ r, read_int sep [b, sep] errno 1 1 = .ok r ∧ ¬ r.cursor ≤ 1) ∧
    (∃ r, read_string sep [b, sep] 1 1 = .ok r ∧ ¬ r.cursor ≤ 1) := by
  have hsc : strchr [b, sep] 1 sep = some 1 := by simp [strchr, strchrFrom]
  constructor
  · have hge := strtoull_endptr_ge [b, sep] 1
    refine ⟨_, (read_int_ok_iff sep errno 1 1 [b, sep] _).mpr ⟨1, hsc, Nat.le_refl 1, rfl⟩, ?_⟩
    simp only
    omega
  · refine ⟨_, read_string_ok sep 1 1 0 [b, sep] (by rw [hsc]; norm_num [ptrValue, WORD])
      (by norm_num [WORD]), ?_⟩
    norm_num [WORD]

/-- C4: when no separator byte lies at an address `p` with
`cursor ≤ p ≤ max`, `read_int` aborts with the corrupt-file error. -/
theorem read_int_no_separator (sep errno cursor max : Nat) (mem : List Nat)
    (h : ∀ p, cursor ≤ p → p ≤ max → peek mem p ≠ sep) :
    read_int sep mem errno cursor max = .error .FormatCorrupt := by
  cases hr : read_int sep mem errno cursor max with
  | error e => cases e; rfl
  | ok r =>
    obtain ⟨q, hq, hle, -⟩ := (read_int_ok_iff sep errno cursor max mem r).mp hr
    obtain ⟨h1, h2⟩ := strchr_some mem cursor sep q hq
    exact absurd h2 (h q h1 hle)

/-- C4, witness: the digits "12" with no separator up to the limit. -/
theorem read_int_no_separator_witness :
    read_int 10 [0, 49, 50] 0 1 2 = .error .FormatCorrupt :=
  read_int_no_separator 10 0 1 2 [0, 49, 50] (by
    intro p h1 h2
    interval_cases p <;> decide)

/-- C5, evaluated at the failing input: the bytes "12x" followed by the
separator, for every `SEPARATOR` other than a digit and `x`. `read_int`
returns 12 without any diagnostic of its own, and leaves the cursor on the
separator (address 4) instead of aborting. -/
theorem read_int_incomplete_span (sep errno : Nat) (hdig : isdigit sep = false)
    (hx : sep ≠ 120) :
    ∃ r, read_int sep [0, 49, 50, 120, sep] errno 1 4 = .ok r ∧
      r.value = 12 ∧ r.cursor = 4 ∧ r.errno = errno ∧ Diag.IntegerNotRead ∉ r.diags := by
  have hsc : strchr [0, 49, 50, 120, sep] 1 sep = some 4 := by
    have := strchr_append sep [0] [49, 50, 120] [] (by
      intro b hb
      simp only [List.mem_cons, List.mem_singleton, List.not_mem_nil, or_false] at hb
      simp only [isdigit, Bool.and_eq_false_imp, decide_eq_true_eq, decide_eq_false_iff_not] at hdig
      omega)
    simpa using this
  have hst : strtoull [0, 49, 50, 120, sep] 1 = { value := 12, endptr := 3, erange := false } :=
    strtoull_digits [0] [49, 50] [sep] 120 (by simp) (by decide) (by decide)
      (by norm_num [decimalValue, WORD])
  refine ⟨_, (read_int_ok_iff sep errno 1 4 _ _).mpr ⟨4, hsc, Nat.le_refl 4, rfl⟩, ?_⟩
  rw [hst]
  simp

/-- C5, witness: "12x" followed by a line feed as separator. -/
theorem read_int_incomplete_span_witness :
    ∃ r, read_int 10 [0, 49, 50, 120, 10] 0 1 4 = .ok r ∧
      r.value = 12 ∧ r.cursor = 4 ∧ r.errno = 0 ∧ Diag.IntegerNotRead ∉ r.diags :=
  read_int_incomplete_span 10 0 (by decide) (by decide)

/-- C6, evaluated where the scan finds no separator before the terminating
NUL: `strchr` returns the null pointer and `read_string`, which does not test
for it, takes `2^64 - cursor` for the length. The sum `*from + len` wraps to
0, so the bounds test of `read_binary_string` passes for every limit and the
corrupt-file exit is never taken, whatever `malloc` does; when `malloc`
refuses the `2^64 - cursor + 1` bytes requested, the process exits through
`xmalloc` instead, and when the request wraps to fewer bytes than the length
(cursor 1) and is granted, `memcpy` overruns the block. -/
theorem read_string_null_separator (grant : Nat → Bool) (sep cursor max : Nat)
    (mem : List Nat) (hnull : strchr mem cursor sep = none) (hlo : 1 ≤ cursor)
    (hhi : cursor < WORD) :
    (ptrValue (strchr mem cursor sep) + (WORD - cursor % WORD)) % WORD = WORD - cursor ∧
    ¬ ((cursor + (WORD - cursor)) % WORD > max) ∧
    read_string_or_exit grant sep mem cursor max ≠ .error .FormatCorrupt ∧
    (grant ((WORD - cursor + 1) % WORD) = false →
      read_string_or_exit grant sep mem cursor max = .error .MallocFailed) ∧
    (grant ((WORD - cursor + 1) % WORD) = true → (WORD - cursor + 1) % WORD < WORD - cursor →
      read_string_or_exit grant sep mem cursor max = .error .Overrun) := by
  have hlen : (ptrValue (strchr mem cursor sep) + (WORD - cursor % WORD)) % WORD
      = WORD - cursor := by
    rw [hnull]
    simp only [ptrValue]
    unfold WORD at hhi ⊢
    omega
  have hsum : (cursor + (WORD - cursor)) % WORD = 0 := by
    unfold WORD at hhi ⊢
    omega
  have hrs := read_string_or_exit_null grant sep cursor max mem hnull hlo hhi
  refine ⟨hlen, by rw [hsum]; omega, ?_, ?_, ?_⟩
  · rw [hrs]
    unfold xmalloc_or_exit
    by_cases hg : grant ((WORD - cursor + 1) % WORD) = true
    · rw [if_pos hg]
      simp only
      cases hm : memcpy_or_overrun (List.replicate ((WORD - cursor + 1) % WORD) none)
          (readBytes mem cursor (WORD - cursor)) with
      | error e =>
        have := memcpy_or_overrun_ne_corrupt _ _ e hm
        subst this
        simp
      | ok result => simp
    · rw [if_neg hg]
      simp
  · intro hg
    rw [hrs]
    unfold xmalloc_or_exit
    rw [hg]
    simp
  · intro hg hsmall
    rw [hrs]
    unfold xmalloc_or_exit
    rw [if_pos hg]
    simp only
    unfold memcpy_or_overrun
    rw [if_neg (by rw [readBytes_length, List.length_replicate]; omega)]

/-- C6, witness: the string "a" at address 2 with no separator before its
terminating NUL, a line feed as separator, limit 2, and a `malloc` that
grants at most 4096 bytes: the process exits through `xmalloc`. -/
theorem read_string_null_separator_witness :
    read_string_or_exit small_heap 10 [0, 0, 97] 2 2 = .error .MallocFailed :=
  (read_string_null_separator small_heap 10 2 2 [0, 0, 97] (by decide) (by decide)
    (by norm_num [WORD])).2.2.2.1 (by norm_num [small_heap, WORD])

/-- C8, as amended: for every 64-bit value `v` and every `SEPARATOR` other
than NUL, `write_int` appends the decimal ASCII digits of `v` (digits only,
of value `v`, at least one, with a leading `0` only for the single digit of
zero) followed by exactly one separator byte, and nothing else. -/
theorem write_int_spec (sep v : Nat) (sink : List Nat) (hnul : sep ≠ 0) (hv : v < WORD) :
    ∃ ds, write_int sep v sink = sink ++ ds ++ [sep] ∧
      (∀ d ∈ ds, isdigit d = true) ∧ decimalValue ds = v ∧ ds ≠ [] ∧
      (ds.head? = some 48 → ds = [48]) ∧ (ds = [48] ↔ v = 0) := by
  refine ⟨fmt_llu v, ?_, fmt_llu_isdigit v, decimalValue_fmt_llu v, fmt_llu_ne_nil v,
    fmt_llu_head v, ?_⟩
  · rw [write_int_eq sep v sink hnul, Nat.mod_eq_of_lt hv]
  · constructor
    · intro h
      have := decimalValue_fmt_llu v
      rw [h] at this
      simpa [decimalValue] using this.symm
    · intro h
      simp [fmt_llu, h]

/-- C8, witness: the value 1234 written with a line feed as separator. -/
theorem write_int_spec_witness :
    ∃ ds, write_int 10 1234 [7] = [7] ++ ds ++ [10] ∧
      (∀ d ∈ ds, isdigit d = true) ∧ decimalValue ds = 1234 ∧ ds ≠ [] ∧
      (ds.head? = some 48 → ds = [48]) ∧ (ds = [48] ↔ 1234 = 0) :=
  write_int_spec 10 1234 [7] (by decide) (by norm_num [WORD])

/-- C8, counterexample: with NUL as `SEPARATOR`, `write_int` appends the
single digit `5` for the value 5; the output does not end in a separator
byte. -/
theorem write_int_nul_separator :
    write_int 0 5 [] = [53] ∧ ¬ ∃ ds, write_int 0 5 [] = [] ++ ds ++ [0] := by
  have hw : write_int 0 5 [] = [53] := by
    rw [write_int_nul]
    norm_num [fmt_llu, WORD]
  rw [hw]
  refine ⟨rfl, ?_⟩
  rintro ⟨ds, hds⟩
  have h := congrArg List.getLast? hds
  simp at h

/-- C9: for every string argument and every `SEPARATOR`, `write_string`
appends the `strlen(s)` bytes of `s` followed by one separator byte, so that
the output grows by `strlen(s) + 1`; for an empty string (no byte, or a NUL
first) the output is the separator alone, and `xfwrite` of size 0 leaves the
stream as it is. -/
theorem write_string_spec (sep : Nat) (s sink : List Nat) :
    write_string sep s sink = sink ++ s.take (strlen s) ++ [sep] ∧
    (s.take (strlen s)).length = strlen s ∧
    (write_string sep s sink).length = sink.length + (strlen s + 1) ∧
    write_string sep [] sink = sink ++ [sep] ∧
    write_string sep (0 :: s) sink = sink ++ [sep] ∧
    xfwrite s 0 sink = sink := by
  have hl : (s.take (strlen s)).length = strlen s := by
    rw [List.length_take]
    exact Nat.min_eq_left (strlen_le_length s)
  refine ⟨write_string_eq sep s sink, hl, ?_, ?_, ?_, ?_⟩
  · rw [write_string_eq]
    simp only [List.length_append, hl, List.length_singleton]
    omega
  · simp [write_string_eq, strlen]
  · simp [write_string_eq, strlen]
  · simp [xfwrite]

/-- C10: `write_binary_string` appends exactly the `len` bytes of the buffer
and no separator; whenever `cursor + len ≤ max`, `read_binary_string` returns
the `len` bytes of memory that start at the cursor, whatever they are, and
advances the cursor by `len`; in particular it returns the bytes that
`write_binary_string` emitted when run at their start. -/
theorem binary_string_round_trip (mem buf sink pre post : List Nat) (cursor len max : Nat)
    (hbuf : len ≤ buf.length) (hmax : cursor + len ≤ max) (hpre : pre.length + len ≤ max)
    (hptr : max < WORD) :
    (write_binary_string buf len sink = sink ++ buf.take len ∧
      (write_binary_string buf len sink).length = sink.length + len) ∧
    (∃ r, read_binary_string mem cursor len max = .ok r ∧
      r.result.take len = (readBytes mem cursor len).map some ∧
      (∀ i, i < len → r.result[i]? = some (some (peek mem (cursor + i)))) ∧
      r.cursor = cursor + len) ∧
    (∃ r, read_binary_string (pre ++ write_binary_string buf len [] ++ post) pre.length len max
        = .ok r ∧
      r.result.take len = (buf.take len).map some ∧ r.cursor = pre.length + len) := by
  have hw : ∀ out, write_binary_string buf len out = out ++ buf.take len := fun out => by
    simp [write_binary_string, xfwrite_eq]
  have htl : (buf.take len).length = len := by
    rw [List.length_take]
    exact Nat.min_eq_left hbuf
  have hmod : ∀ c, c + len ≤ max → (c + len) % WORD = c + len := by
    intro c hc
    apply Nat.mod_eq_of_lt
    omega
  have htake : ∀ m c, (memcpy (xmalloc ((len + 1) % WORD)) (readBytes m c len)).take len
      = (readBytes m c len).map some := by
    intro m c
    have := memcpy_take (xmalloc ((len + 1) % WORD)) (readBytes m c len)
    rwa [readBytes_length] at this
  refine ⟨⟨hw sink, by rw [hw, List.length_append, htl]⟩, ?_, ?_⟩
  · refine ⟨_, read_binary_string_ok mem cursor len max (by rw [hmod cursor hmax]; exact hmax),
      htake mem cursor, ?_, hmod cursor hmax⟩
    intro i hi
    have h1 : ((memcpy (xmalloc ((len + 1) % WORD)) (readBytes mem cursor len)).take len)[i]?
        = (memcpy (xmalloc ((len + 1) % WORD)) (readBytes mem cursor len))[i]? :=
      List.getElem?_take_of_lt hi
    simp only
    rw [← h1, htake]
    simp [readBytes, hi]
  · rw [hw, List.nil_append]
    refine ⟨_, read_binary_string_ok _ pre.length len max (by rw [hmod _ hpre]; exact hpre),
      ?_, hmod _ hpre⟩
    simp only
    rw [htake]
    have := readBytes_append pre (buf.take len) post
    rw [htl] at this
    rw [List.append_assoc, this]

/-- C10, witness: a three-byte blob holding a NUL and a line feed. -/
theorem binary_string_round_trip_witness :
    (write_binary_string [0, 10, 65] 3 [9] = [9] ++ [0, 10, 65].take 3 ∧
      (write_binary_string [0, 10, 65] 3 [9]).length = ([9] : List Nat).length + 3) ∧
    (∃ r, read_binary_string [1, 0, 10, 65, 2] 1 3 4 = .ok r ∧
      r.result.take 3 = (readBytes [1, 0, 10, 65, 2] 1 3).map some ∧
      (∀ i, i < 3 → r.result[i]? = some (some (peek [1, 0, 10, 65, 2] (1 + i)))) ∧
      r.cursor = 1 + 3) ∧
    (∃ r, read_binary_string ([1] ++ write_binary_string [0, 10, 65] 3 [] ++ [2])
        ([1] : List Nat).length 3 4 = .ok r ∧
      r.result.take 3 = ([0, 10, 65].take 3).map some ∧
      r.cursor = ([1] : List Nat).length + 3) :=
  binary_string_round_trip [1, 0, 10, 65, 2] [0, 10, 65] [9] [1] [2] 1 3 4
    (by decide) (by decide) (by decide) (by norm_num [WORD])

/-- C11, evaluated on every successful read: when the separator is found at
address `q` within the limit, the span has `n = q - cursor` bytes and
`read_string` returns a block of `n + 1` bytes whose first `n` are the span
and whose byte at index `n` is the indeterminate byte that `malloc` left
there; no NUL is stored. -/
theorem read_string_unterminated (sep cursor max q : Nat) (mem : List Nat)
    (hq : strchr mem cursor sep = some q) (hle : q ≤ max) (hptr : max + 1 < WORD) :
    ∃ r, read_string sep mem cursor max = .ok r ∧
      r.result = (readBytes mem cursor (q - cursor)).map some ++ [none] ∧
      r.result[q - cursor]? = some none := by
  obtain ⟨hcq, -⟩ := strchr_some mem cursor sep q hq
  have hlen : (ptrValue (strchr mem cursor sep) + (WORD - cursor % WORD)) % WORD = q - cursor := by
    rw [hq]
    simp only [ptrValue]
    unfold WORD at hptr ⊢
    omega
  have hb : (cursor + (q - cursor)) % WORD ≤ max := by
    unfold WORD at hptr ⊢
    omega
  have hsz : (q - cursor + 1) % WORD = q - cursor + 1 := by
    unfold WORD at hptr ⊢
    omega
  have hres : memcpy (xmalloc ((q - cursor + 1) % WORD)) (readBytes mem cursor (q - cursor))
      = (readBytes mem cursor (q - cursor)).map some ++ [none] := by
    rw [hsz]
    simp [memcpy, xmalloc, readBytes_length, List.drop_replicate]
  refine ⟨_, read_string_ok sep cursor max (q - cursor) mem hlen hb, hres, ?_⟩
  simp only
  rw [hres, List.getElem?_append_right (by simp [readBytes_length])]
  simp [readBytes_length]

/-- C11, witness: the string "a" followed by a line feed as separator; the
block returned holds `a` and one indeterminate byte. -/
theorem read_string_unterminated_witness :
    ∃ r, read_string 10 [0, 97, 10] 1 2 = .ok r ∧
      r.result = (readBytes [0, 97, 10] 1 (2 - 1)).map some ++ [none] ∧
      r.result[2 - 1]? = some none :=
  read_string_unterminated 10 1 2 2 [0, 97, 10] (by decide) (by decide) (by norm_num [WORD])

/-- C14: for every 64-bit value the text of `%llu` has at most 20 characters,
so what `sprintf` stores in `buf` (digits, the separator, the terminating
NUL) has at most 22 bytes and fits the 32 bytes of `buf`. -/
theorem write_int_buf_fits (sep v : Nat) (hv : v < WORD) :
    (fmt_llu v).length ≤ 20 ∧
    (sprintf_llu_c (v % WORD) sep).length ≤ 22 ∧
    (sprintf_llu_c (v % WORD) sep).length ≤ WRITE_INT_BUF := by
  have h := fmt_llu_length v hv
  rw [Nat.mod_eq_of_lt hv]
  simp only [sprintf_llu_c, List.length_append, List.length_singleton, WRITE_INT_BUF]
  omega

/-- C14, witness: the largest 64-bit value. -/
theorem write_int_buf_fits_witness :
    (fmt_llu 18446744073709551615).length ≤ 20 ∧
    (sprintf_llu_c (18446744073709551615 % WORD) 10).length ≤ 22 ∧
    (sprintf_llu_c (18446744073709551615 % WORD) 10).length ≤ WRITE_INT_BUF :=
  write_int_buf_fits 10 18446744073709551615 (by norm_num [WORD])

/-- C15, evaluated at the failing input: the bytes "7xy" followed by the
separator, for every `SEPARATOR` other than a digit, `x` and `y`. The first
separator is at address 4, so the next field starts at address 5; `read_int`
returns 7 and leaves the cursor at address 3, on the `y` of the same field. -/
theorem read_int_out_of_step (sep errno : Nat) (hdig : isdigit sep = false)
    (hx : sep ≠ 120) (hy : sep ≠ 121) :
    strchr [0, 55, 120, 121, sep] 1 sep = some 4 ∧
    ∃ r, read_int sep [0, 55, 120, 121, sep] errno 1 4 = .ok r ∧
      r.value = 7 ∧ r.cursor = 3 ∧ r.cursor ≠ 4 + 1 := by
  have hsc : strchr [0, 55, 120, 121, sep] 1 sep = some 4 := by
    have := strchr_append sep [0] [55, 120, 121] [] (by
      intro b hb
      simp only [List.mem_cons, List.mem_singleton, List.not_mem_nil, or_false] at hb
      simp only [isdigit, Bool.and_eq_false_imp, decide_eq_true_eq, decide_eq_false_iff_not] at hdig
      omega)
    simpa using this
  have hst : strtoull [0, 55, 120, 121, sep] 1 = { value := 7, endptr := 2, erange := false } :=
    strtoull_digits [0] [55] [121, sep] 120 (by simp) (by decide) (by decide)
      (by norm_num [decimalValue, WORD])
  refine ⟨hsc, _, (read_int_ok_iff sep errno 1 4 _ _).mpr ⟨4, hsc, Nat.le_refl 4, rfl⟩, ?_⟩
  rw [hst]
  simp

/-- C15, witness: "7xy" followed by a line feed as separator. -/
theorem read_int_out_of_step_witness :
    strchr [0, 55, 120, 121, 10] 1 10 = some 4 ∧
    ∃ r, read_int 10 [0, 55, 120, 121, 10] 0 1 4 = .ok r ∧
      r.value = 7 ∧ r.cursor = 3 ∧ r.cursor ≠ 4 + 1 :=
  read_int_out_of_step 10 0 (by decide) (by decide) (by decide)

/-- C16: for every non-empty span of decimal digits whose value is `2^64` or
more and that is followed by a separator within the limit, `read_int` does
not abort: it returns `2^64 - 1`, leaves `ERANGE` in `errno`, and prints the
one diagnostic "String could not be converted to integer"; when the
separator is not itself a digit the cursor is left just past it. -/
theorem read_int_saturates (sep errno max : Nat) (pre ds post : List Nat)
    (hne : ds ≠ []) (hds : ∀ d ∈ ds, isdigit d = true) (hsep : ∀ d ∈ ds, d ≠ sep)
    (hbig : WORD ≤ decimalValue ds) (hmax : pre.length + ds.length ≤ max) :
    ∃ r, read_int sep (pre ++ (ds ++ sep :: post)) errno pre.length max = .ok r ∧
      r.value = WORD - 1 ∧ r.errno = ERANGE ∧ r.diags = [Diag.StringNotConverted] ∧
      (isdigit sep = false → r.cursor = pre.length + ds.length + 1) := by
  have hsc : strchr (pre ++ (ds ++ sep :: post)) pre.length sep
      = some (pre.length + ds.length) := by
    apply strchr_append
    intro b hb
    refine ⟨hsep b hb, ?_⟩
    intro h0
    have := hds b hb
    rw [h0] at this
    simp [isdigit] at this
  have hge : WORD ≤ decimalValue (ds ++ (sep :: post).takeWhile isdigit) :=
    Nat.le_trans hbig (decimalValue_append_ge ds _)
  have hst := strtoull_digit_run pre ds (sep :: post) hne hds
  rw [if_pos hge] at hst
  have hW : WORD - 1 ≠ 0 := by
    unfold WORD
    omega
  refine ⟨_, (read_int_ok_iff sep errno pre.length max _ _).mpr
    ⟨pre.length + ds.length, hsc, hmax, rfl⟩, ?_⟩
  rw [hst]
  refine ⟨rfl, by simp, by simp [hW], ?_⟩
  intro hdig
  simp [List.takeWhile, hdig]

/-- C16, witness: the 21 digits of `10^20`, followed by a line feed. -/
theorem read_int_saturates_witness :
    ∃ r, read_int 10 ([0] ++ ((49 :: List.replicate 20 48) ++ 10 :: [55])) 0
        ([0] : List Nat).length 30 = .ok r ∧
      r.value = WORD - 1 ∧ r.errno = ERANGE ∧ r.diags = [Diag.StringNotConverted] ∧
      (isdigit 10 = false →
        r.cursor = ([0] : List Nat).length + (49 :: List.replicate 20 48).length + 1) :=
  read_int_saturates 10 0 30 [0] (49 :: List.replicate 20 48) [55] (by simp) (by decide)
    (by decide) (by norm_num [decimalValue, WORD, List.replicate]) (by decide)

/-- C12: `DIFF_NONE` is 0, the eight flags are the single-bit values
`2^0 .. 2^7` and pairwise distinct; reading the flags back from the OR of a
set gives that set, OR-ing the flags read from a value below 256 gives that
value, so sets and the values `0 .. 255` correspond one to one; the bitmask
is `DIFF_NONE` for the empty set only. -/
theorem diff_flags_independent :
    DIFF_NONE = 0 ∧
    DIFF_FLAGS = (List.range 8).map (fun k => 2 ^ k) ∧
    DIFF_FLAGS.Nodup ∧
    (∀ s : DiffSet, DiffSet.ofMask s.mask = s) ∧
    (∀ s : DiffSet, s.mask < 256) ∧
    (∀ m : Fin 256, (DiffSet.ofMask m.val).mask = m.val) ∧
    Function.Injective DiffSet.mask ∧
    (∀ s : DiffSet, s.mask = DIFF_NONE ↔ s = DiffSet.empty) := by
  have hinv : ∀ s : DiffSet, DiffSet.ofMask s.mask = s := by
    rintro ⟨o, g, m, t, mt, x, a, d⟩
    cases o <;> cases g <;> cases m <;> cases t <;> cases mt <;> cases x <;> cases a <;>
      cases d <;> rfl
  refine ⟨rfl, by decide, by decide, hinv, ?_, ?_, ?_, ?_⟩
  · rintro ⟨o, g, m, t, mt, x, a, d⟩
    cases o <;> cases g <;> cases m <;> cases t <;> cases mt <;> cases x <;> cases a <;>
      cases d <;> decide
  · rintro ⟨m, hm⟩
    simp only
    interval_cases m <;> rfl
  · intro s t h
    rw [← hinv s, ← hinv t, h]
  · intro s
    constructor
    · intro h
      rw [← hinv s, h]
      rfl
    · rintro rfl
      rfl

/-- C13: the literal `SIGNATURE` has exactly `SIGNATURELEN = 10` bytes and
the literal `VERSION` exactly `VERSIONLEN = 8` bytes, none of them NUL, so
the two together frame the file with 18 bytes. -/
theorem header_is_18_bytes :
    SIGNATURELEN = 10 ∧ SIGNATURE.length = SIGNATURELEN ∧ strlen SIGNATURE = SIGNATURELEN ∧
    VERSIONLEN = 8 ∧ VERSION.length = VERSIONLEN ∧ strlen VERSION = VERSIONLEN ∧
    (SIGNATURE ++ VERSION).length = 18 ∧ SIGNATURELEN + VERSIONLEN = 18 := by
  refine ⟨rfl, by decide, by decide, rfl, by decide, by decide, by decide, rfl⟩

/-- C17: on the table cached from any list of `(name, id)` entries, each of
`xgetgrnam`, `xgetgrgid`, `xgetpwnam` and `xgetpwuid` returns the entry at
index `i` exactly when that is the first entry, in table order, whose name
is the queried string (respectively whose id is the queried id), and returns
`NULL` exactly when no entry matches; index `i` of the table holds the name
and id of entry `i`. -/
theorem cached_lookup_exact (db : List (List Nat × Nat)) (name : List Nat) (id i : Nat) :
    (xgetgrnam (create_group_table db) name = some i ↔
      FirstMatch (fun e => cstr name = cstr e.1) db i) ∧
    (xgetgrnam (create_group_table db) name = none ↔ ∀ e ∈ db, ¬ cstr name = cstr e.1) ∧
    (xgetgrgid (create_group_table db) id = some i ↔ FirstMatch (fun e => e.2 = id) db i) ∧
    (xgetgrgid (create_group_table db) id = none ↔ ∀ e ∈ db, ¬ e.2 = id) ∧
    (xgetpwnam (create_passwd_table db) name = some i ↔
      FirstMatch (fun e => cstr name = cstr e.1) db i) ∧
    (xgetpwnam (create_passwd_table db) name = none ↔ ∀ e ∈ db, ¬ cstr name = cstr e.1) ∧
    (xgetpwuid (create_passwd_table db) id = some i ↔ FirstMatch (fun e => e.2 = id) db i) ∧
    (xgetpwuid (create_passwd_table db) id = none ↔ ∀ e ∈ db, ¬ e.2 = id) ∧
    (∀ e, db[i]? = some e →
      (create_group_table db)[i]? = some { gr_name := some e.1, gr_gid := e.2 } ∧
      (create_passwd_table db)[i]? = some { pw_name := some e.1, pw_uid := e.2 }) := by
  have hnam : ∀ e : List Nat × Nat, strcmp name e.1 = 0 ↔ cstr name = cstr e.1 :=
    fun e => strcmp_eq_zero_iff name e.1
  have hnone : (∀ e ∈ db, ¬ strcmp name e.1 = 0) ↔ ∀ e ∈ db, ¬ cstr name = cstr e.1 := by
    constructor
    · intro h e he hc
      exact h e he ((hnam e).mpr hc)
    · intro h e he hc
      exact h e he ((hnam e).mp hc)
  refine ⟨?_, ?_, ?_, ?_, ?_, ?_, ?_, ?_, ?_⟩
  · unfold xgetgrnam create_group_table
    rw [xgetgrnam_loop_eq]
    exact (findIdx?_eq_some_iff_firstMatch
      (fun e : List Nat × Nat => strcmp name e.1 = 0) db i).trans (firstMatch_congr _ _ hnam db i)
  · unfold xgetgrnam create_group_table
    rw [xgetgrnam_loop_eq]
    exact (findIdx?_eq_none_iff_forall
      (fun e : List Nat × Nat => strcmp name e.1 = 0) db).trans hnone
  · unfold xgetgrgid create_group_table
    rw [xgetgrgid_loop_eq]
    exact findIdx?_eq_some_iff_firstMatch (fun e : List Nat × Nat => e.2 = id) db i
  · unfold xgetgrgid create_group_table
    rw [xgetgrgid_loop_eq]
    exact findIdx?_eq_none_iff_forall (fun e : List Nat × Nat => e.2 = id) db
  · unfold xgetpwnam create_passwd_table
    rw [xgetpwnam_loop_eq]
    exact (findIdx?_eq_some_iff_firstMatch
      (fun e : List Nat × Nat => strcmp name e.1 = 0) db i).trans (firstMatch_congr _ _ hnam db i)
  · unfold xgetpwnam create_passwd_table
    rw [xgetpwnam_loop_eq]
    exact (findIdx?_eq_none_iff_forall
      (fun e : List Nat × Nat => strcmp name e.1 = 0) db).trans hnone
  · unfold xgetpwuid create_passwd_table
    rw [xgetpwuid_loop_eq]
    exact findIdx?_eq_some_iff_firstMatch (fun e : List Nat × Nat => e.2 = id) db i
  · unfold xgetpwuid create_passwd_table
    rw [xgetpwuid_loop_eq]
    exact findIdx?_eq_none_iff_forall (fun e : List Nat × Nat => e.2 = id) db
  · intro e he
    exact ⟨create_group_table_getElem? db i e he, create_passwd_table_getElem? db i e he⟩

/-- C17, witness: a table of three entries named "r", "a", "r" with ids 0,
4, 7. The name "r" is found at index 0, the id 7 at index 2, and the name
"z" nowhere. -/
theorem cached_lookup_exact_witness :
    FirstMatch (fun e : List Nat × Nat => cstr [114] = cstr e.1)
      [([114], 0), ([97], 4), ([114], 7)] 0 ∧
    FirstMatch (fun e : List Nat × Nat => e.2 = 7) [([114], 0), ([97], 4), ([114], 7)] 2 ∧
    (∀ e ∈ [(([114] : List Nat), 0), ([97], 4), ([114], 7)], ¬ cstr [122] = cstr e.1) :=
  ⟨(cached_lookup_exact [([114], 0), ([97], 4), ([114], 7)] [114] 7 0).1.mp (by decide),
   (cached_lookup_exact [([114], 0), ([97], 4), ([114], 7)] [114] 7 2).2.2.1.mp (by decide),
   (cached_lookup_exact [([114], 0), ([97], 4), ([114], 7)] [122] 7 0).2.1.mp (by decide)⟩

/-- C18: `msg` prints nothing and returns 0 when the level is above the
verbosity; otherwise it appends the text to stderr when the level is below
`MSG_QUIET` (`MSG_ERROR`, `MSG_CRITICAL`) and to stdout when it is not
(`MSG_QUIET`, `MSG_NORMAL`, `MSG_DEBUG`), and returns the number of
characters. The verbosity after a run of `adjust_verbosity` calls from the
initial state is the sum of the adjustments. At the initial verbosity a
`MSG_DEBUG` message is suppressed; a `MSG_CRITICAL` message goes to stderr
unless the verbosity is below -3. -/
theorem msg_filters_and_routes (level : Int) (text : List Nat) (c : Console)
    (adjs : List Int) :
    (level > c.verbosity → msg level text c = (0, c)) ∧
    (¬ level > c.verbosity → level < MSG_QUIET →
      msg level text c = ((text.length : Int), { c with err := c.err ++ text })) ∧
    (¬ level > c.verbosity → ¬ level < MSG_QUIET →
      msg level text c = ((text.length : Int), { c with out := c.out ++ text })) ∧
    (MSG_ERROR < MSG_QUIET ∧ MSG_CRITICAL < MSG_QUIET ∧ ¬ MSG_QUIET < MSG_QUIET ∧
      ¬ MSG_NORMAL < MSG_QUIET ∧ ¬ MSG_DEBUG < MSG_QUIET) ∧
    Console.initial.verbosity = 0 ∧
    (adjs.foldl (fun c a => adjust_verbosity a c) Console.initial).verbosity = adjs.sum ∧
    msg MSG_DEBUG text Console.initial = (0, Console.initial) ∧
    (¬ c.verbosity < -3 →
      msg MSG_CRITICAL text c = ((text.length : Int), { c with err := c.err ++ text })) ∧
    (c.verbosity < -3 → msg MSG_CRITICAL text c = (0, c)) := by
  refine ⟨?_, ?_, ?_, by decide, rfl, ?_, ?_, ?_, ?_⟩
  · intro h
    simp [msg, h]
  · intro h1 h2
    simp [msg, h1, h2]
  · intro h1 h2
    simp [msg, h1, h2]
  · rw [foldl_adjust_verbosity]
    simp [Console.initial]
  · simp [msg, MSG_DEBUG, Console.initial]
  · intro h
    have h1 : ¬ MSG_CRITICAL > c.verbosity := by
      unfold MSG_CRITICAL
      omega
    have h2 : MSG_CRITICAL < MSG_QUIET := by decide
    simp [msg, h1, h2]
  · intro h
    have h1 : MSG_CRITICAL > c.verbosity := by
      unfold MSG_CRITICAL
      omega
    simp [msg, h1]

/-- C18, witness: the text "hi" at the initial verbosity. A `MSG_DEBUG`
message is dropped, a `MSG_ERROR` message goes to stderr, a `MSG_NORMAL`
message to stdout. -/
theorem msg_filters_and_routes_witness :
    msg MSG_DEBUG [104, 105] Console.initial = (0, Console.initial) ∧
    msg MSG_ERROR [104, 105] Console.initial
      = ((([104, 105] : List Nat).length : Int),
          { Console.initial with err := Console.initial.err ++ [104, 105] }) ∧
    msg MSG_NORMAL [104, 105] Console.initial
      = ((([104, 105] : List Nat).length : Int),
          { Console.initial with out := Console.initial.out ++ [104, 105] }) :=
  ⟨(msg_filters_and_routes MSG_DEBUG [104, 105] Console.initial []).1 (by decide),
   (msg_filters_and_routes MSG_ERROR [104, 105] Console.initial []).2.1 (by decide) (by decide),
   (msg_filters_and_routes MSG_NORMAL [104, 105] Console.initial []).2.2.1 (by decide)
     (by decide)⟩

end Metastore
